import Mathlib

/-!
# Verification of `process.go` (goforever process supervisor)

A shallow embedding of the single source file `process.go`.  Pure helpers
(`strconv` parsing, pidfile content handling) become Lean functions on
`String`/`Option String`; the stateful `Process` handle becomes an explicit
record transformed by one Lean function per Go method.  IO outcomes that the
code branches on (whether `os.StartProcess` succeeds, whether the pidfile
write succeeds, which channel fires in `Watch`) are passed in explicitly as
an `Env` record / a `WaitMsg` argument, so every operation is a total
computable function of its inputs.
-/

namespace GoForever

/-! ## Model of `strconv.ParseInt(s, 0, 32)` and `strconv.Itoa`

`Pidfile.read` calls `strconv.ParseInt(string(data), 0, 32)`: base 0 means
the base is detected from the literal (leading `0b`/`0o`/`0x` prefixes, a
bare leading `0` meaning octal, otherwise decimal) and underscores are
permitted between digits.  `Pidfile.write` serializes with `strconv.Itoa`.
We model both over `List Char`. -/

/-- Go's `lower(c) = c | ('x' - 'X')`: ASCII lower-casing by setting bit 5. -/
def lowerCh (c : Char) : Char := Char.ofNat (c.toNat ||| 32)

/-- The digit value of a character as in Go's `ParseUint` loop:
`'0'..'9'` map to 0..9, letters (case-insensitively) to 10..35, anything
else is a syntax error. -/
def digitVal (c : Char) : Option Nat :=
  if '0' ≤ c ∧ c ≤ '9' then some (c.toNat - 48)
  else if 'a' ≤ lowerCh c ∧ lowerCh c ≤ 'z' then some ((lowerCh c).toNat - 97 + 10)
  else none

/-- The digit-accumulation loop of Go's `ParseUint`.  With base 0 the
underscore character is skipped here (its placement is validated separately
by `underscoreOK`).  A digit not below the base is a syntax error.
Go accumulates in a `uint64` and reports a range error on overflow; we keep
the exact natural number instead — callers re-check the (much smaller)
`int32` range, so every Go overflow error is still rejected. -/
def digLoop (base : Nat) : List Char → Nat → Option Nat
  | [], acc => some acc
  | c :: rest, acc =>
    if c = '_' then digLoop base rest acc
    else match digitVal c with
      | none => none
      | some d => if d < base then digLoop base rest (acc * base + d) else none

/-- Go's `underscoreOK`: underscores may only separate digits (or follow a
base prefix).  `saw` tracks the previous character class exactly as in the
Go source: `'^'` beginning, `'0'` base prefix, `'_'` underscore,
`'!'` anything else. -/
def underscoreOKLoop (hex : Bool) : List Char → Char → Bool
  | [], saw => saw ≠ '_'
  | c :: rest, saw =>
    if ('0' ≤ c ∧ c ≤ '9') ∨ (hex ∧ 'a' ≤ lowerCh c ∧ lowerCh c ≤ 'f') then
      underscoreOKLoop hex rest '!'
    else if c = '_' then
      if saw ≠ '!' ∧ saw ≠ '0' then false
      else underscoreOKLoop hex rest '_'
    else if saw = '_' then false
    else underscoreOKLoop hex rest '!'

/-- Go's `underscoreOK s`: strip a sign, recognize a `0b`/`0o`/`0x` prefix,
then scan with `underscoreOKLoop`. -/
def underscoreOK (s : List Char) : Bool :=
  let s1 := match s with
    | c :: rest => if c = '-' ∨ c = '+' then rest else c :: rest
    | [] => []
  match s1 with
  | c0 :: c1 :: rest =>
    if c0 = '0' ∧ (lowerCh c1 = 'b' ∨ lowerCh c1 = 'o' ∨ lowerCh c1 = 'x') then
      underscoreOKLoop (lowerCh c1 = 'x') rest '0'
    else underscoreOKLoop false (c0 :: c1 :: rest) '^'
  | s1 => underscoreOKLoop false s1 '^'

/-- Base detection of Go's `ParseUint` when called with base 0: a
`0b`/`0o`/`0x` prefix (only when at least one character follows it), else a
bare leading `0` selects octal and is consumed, else decimal. -/
def baseDetect : List Char → Nat × List Char
  | [] => (10, [])
  | c :: rest =>
    if c = '0' then
      match rest with
      | c1 :: rest1 =>
        if rest1 ≠ [] ∧ lowerCh c1 = 'b' then (2, rest1)
        else if rest1 ≠ [] ∧ lowerCh c1 = 'o' then (8, rest1)
        else if rest1 ≠ [] ∧ lowerCh c1 = 'x' then (16, rest1)
        else (8, c1 :: rest1)
      | [] => (8, [])
    else (10, c :: rest)

/-- Go's `ParseUint(s, 0, 64)` (modulo exact-overflow bookkeeping, see
`digLoop`): empty input is a syntax error; otherwise detect the base,
run the digit loop, and reject misplaced underscores. -/
def goParseUint0 (s : List Char) : Option Nat :=
  match s with
  | [] => none
  | _ =>
    let bd := baseDetect s
    match digLoop bd.1 bd.2 0 with
    | none => none
    | some n => if '_' ∈ bd.2 ∧ ¬ underscoreOK s then none else some n

/-- Go's `ParseInt(s, 0, 32)`: strip an optional sign, parse the magnitude
with `goParseUint0`, then enforce the `int32` range
(`-2^31 ≤ v ≤ 2^31 - 1`); any violation is reported as an error (Go returns
a clamped value *and* a non-nil range error, and `Pidfile.read` only looks
at the error). -/
def goParseInt32 (s : String) : Option Int :=
  match s.data with
  | [] => none
  | c :: rest =>
    match goParseUint0 (if c = '-' ∨ c = '+' then rest else c :: rest) with
    | none => none
    | some n =>
      if c = '-' then
        if 2 ^ 31 < n then none else some (-(n : Int))
      else
        if 2 ^ 31 ≤ n then none else some (n : Int)

/-- Decimal digit characters of `n`, most significant first (the digits
`strconv.Itoa` prints).  Structural recursion on a fuel argument that is
always sufficient (`n < fuel`), so the definition evaluates by `decide`. -/
def natDigsAux : Nat → Nat → List Char
  | 0, _ => []
  | fuel + 1, n =>
    if n < 10 then [Nat.digitChar n]
    else natDigsAux fuel (n / 10) ++ [Nat.digitChar (n % 10)]

/-- Decimal digit characters of `n`, most significant first. -/
def natDigs (n : Nat) : List Char := natDigsAux (n + 1) n

/-- Model of `strconv.Itoa`: a minus sign for negatives, then the decimal
digits. -/
def itoa (i : Int) : String :=
  if i < 0 then ⟨'-' :: natDigs (-i).toNat⟩ else ⟨natDigs i.toNat⟩

/-! ## The `Pidfile` protocol

The on-disk state of one handle's pidfile is modelled as `Option String`
(`none` = the file does not exist at the configured path). -/

/-- `Pidfile.read` (process.go:262): `ioutil.ReadFile` then
`strconv.ParseInt(content, 0, 32)`; a read error (missing file) or a parse
error yields the pid 0, never an error. -/
def Pidfile.read (fs : Option String) : Int :=
  match fs with
  | none => 0
  | some data =>
    match goParseInt32 data with
    | none => 0
    | some pid => pid

/-- `Pidfile.write` (process.go:275): `ioutil.WriteFile` of
`strconv.Itoa data` (the successful case; `Start` consults the environment
for whether the write succeeds). -/
def Pidfile.write (data : Int) : Option String := some (itoa data)

/-- `Pidfile.delete` (process.go:284): `os.Stat` then `os.Remove`; a stat
error (file already absent) returns `true` without attempting removal, and
a successful removal also returns `true`.  (Removal of an existing regular
file is modelled as succeeding.) -/
def Pidfile.delete (fs : Option String) : Option String × Bool :=
  match fs with
  | none => (none, true)
  | some _ => (none, true)

/-! ### Round-trip lemmas for the pidfile protocol -/

theorem digitVal_digitChar {d : Nat} (h : d < 10) : digitVal (Nat.digitChar d) = some d := by
  interval_cases d <;> decide

theorem digitChar_ne_underscore {d : Nat} (h : d < 10) : Nat.digitChar d ≠ '_' := by
  interval_cases d <;> decide

theorem digLoop_append (b : Nat) (xs ys : List Char) (acc : Nat) :
    digLoop b (xs ++ ys) acc = (digLoop b xs acc).bind (fun a => digLoop b ys a) := by
  induction xs generalizing acc with
  | nil => simp [digLoop]
  | cons c rest ih =>
    simp only [List.cons_append, digLoop]
    by_cases hc : c = '_'
    · simp [hc, ih]
    · simp only [if_neg hc]
      cases hdv : digitVal c with
      | none => simp
      | some d =>
        by_cases hd : d < b
        · simp [hd, ih]
        · simp [hd]

theorem natDigsAux_all_digits {fuel n : Nat} (h : n < fuel) :
    ∀ c ∈ natDigsAux fuel n, ∃ d, d < 10 ∧ c = Nat.digitChar d := by
  induction fuel generalizing n with
  | zero => omega
  | succ fuel ih =>
    intro c hc
    rw [natDigsAux] at hc
    by_cases h10 : n < 10
    · rw [if_pos h10] at hc
      simp only [List.mem_singleton] at hc
      exact ⟨n, h10, hc⟩
    · rw [if_neg h10] at hc
      rcases List.mem_append.mp hc with hmem | hmem
      · exact ih (by omega) c hmem
      · simp only [List.mem_singleton] at hmem
        exact ⟨n % 10, Nat.mod_lt _ (by omega), hmem⟩

theorem digLoop_natDigsAux {fuel n : Nat} (h : n < fuel) (acc : Nat) :
    digLoop 10 (natDigsAux fuel n) acc =
      some (acc * 10 ^ (natDigsAux fuel n).length + n) := by
  induction fuel generalizing n acc with
  | zero => omega
  | succ fuel ih =>
    rw [natDigsAux]
    by_cases h10 : n < 10
    · rw [if_pos h10]
      simp [digLoop, digitChar_ne_underscore h10, digitVal_digitChar h10, h10]
    · rw [if_neg h10]
      have hdiv : n / 10 < fuel := by omega
      have hmod : n % 10 < 10 := Nat.mod_lt _ (by omega)
      rw [digLoop_append, ih hdiv]
      simp only [Option.bind]
      have hstep : digLoop 10 [Nat.digitChar (n % 10)]
          (acc * 10 ^ (natDigsAux fuel (n / 10)).length + n / 10) =
          some ((acc * 10 ^ (natDigsAux fuel (n / 10)).length + n / 10) * 10 + n % 10) := by
        simp [digLoop, digitChar_ne_underscore hmod, digitVal_digitChar hmod, hmod]
      rw [hstep]
      simp only [List.length_append, List.length_cons, List.length_nil, Option.some.injEq]
      have hdm : 10 * (n / 10) + n % 10 = n := Nat.div_add_mod n 10
      calc (acc * 10 ^ (natDigsAux fuel (n / 10)).length + n / 10) * 10 + n % 10
          = acc * (10 ^ (natDigsAux fuel (n / 10)).length * 10) +
              (10 * (n / 10) + n % 10) := by ring
        _ = acc * 10 ^ ((natDigsAux fuel (n / 10)).length + (0 + 1)) + n := by
              rw [hdm, pow_succ]

theorem natDigsAux_head {fuel n : Nat} (h : n < fuel) (h1 : 1 ≤ n) :
    ∃ d cs, natDigsAux fuel n = Nat.digitChar d :: cs ∧ 1 ≤ d ∧ d < 10 := by
  induction fuel generalizing n with
  | zero => omega
  | succ fuel ih =>
    rw [natDigsAux]
    by_cases h10 : n < 10
    · exact ⟨n, [], by simp [h10], h1, h10⟩
    · have hdiv : n / 10 < fuel := by omega
      have h1' : 1 ≤ n / 10 := by omega
      obtain ⟨d, cs, heq, hd1, hd10⟩ := ih hdiv h1'
      exact ⟨d, cs ++ [Nat.digitChar (n % 10)], by simp [h10, heq], hd1, hd10⟩

theorem nonzero_digitChar_ne {d : Nat} (h1 : 1 ≤ d) (h10 : d < 10) :
    Nat.digitChar d ≠ '0' ∧ Nat.digitChar d ≠ '-' ∧ Nat.digitChar d ≠ '+' := by
  interval_cases d <;> decide

theorem goParseUint0_natDigs {n : Nat} (h1 : 1 ≤ n) :
    goParseUint0 (natDigs n) = some n := by
  obtain ⟨d, cs, heq, hd1, hd10⟩ := natDigsAux_head (Nat.lt_succ_self n) h1
  obtain ⟨hne0, _, _⟩ := nonzero_digitChar_ne hd1 hd10
  have hval := digLoop_natDigsAux (Nat.lt_succ_self n) 0
  have hnou : '_' ∉ natDigsAux (n + 1) n := by
    intro hmem
    obtain ⟨e, he10, habs⟩ := natDigsAux_all_digits (Nat.lt_succ_self n) _ hmem
    exact digitChar_ne_underscore he10 habs.symm
  have heq' : natDigs n = Nat.digitChar d :: cs := heq
  rw [show natDigs n = natDigsAux (n + 1) n from rfl] at heq'
  rw [heq'] at hval hnou
  show goParseUint0 (natDigsAux (n + 1) n) = some n
  rw [heq']
  have hbd : baseDetect (Nat.digitChar d :: cs) = (10, Nat.digitChar d :: cs) := by
    simp only [baseDetect]
    rw [if_neg hne0]
  simp only [goParseUint0, hbd, hval]
  rw [if_neg (by intro hc; exact hnou hc.1)]
  simp

theorem goParseInt32_natDigs {n : Nat} (h1 : 1 ≤ n) (h2 : n ≤ 2 ^ 31 - 1) :
    goParseInt32 ⟨natDigs n⟩ = some (n : Int) := by
  have hUint := goParseUint0_natDigs h1
  obtain ⟨d, cs, heq, hd1, hd10⟩ := natDigsAux_head (Nat.lt_succ_self n) h1
  obtain ⟨hne0, hneM, hneP⟩ := nonzero_digitChar_ne hd1 hd10
  have heq' : natDigs n = Nat.digitChar d :: cs := heq
  rw [heq'] at hUint
  rw [heq']
  simp only [goParseInt32]
  rw [if_neg (by simp [hneM, hneP])]
  rw [hUint]
  simp only []
  rw [if_neg hneM, if_neg (by omega : ¬ 2 ^ 31 ≤ n)]

/-- `write` then `read` round-trips for every pid in `[1, 2^31 - 1]`. -/
theorem read_write_roundtrip (pid : Int) (h1 : 1 ≤ pid) (h2 : pid ≤ 2 ^ 31 - 1) :
    Pidfile.read (Pidfile.write pid) = pid := by
  have hn1 : 1 ≤ pid.toNat := by omega
  have hn2 : pid.toNat ≤ 2 ^ 31 - 1 := by omega
  have hitoa : itoa pid = ⟨natDigs pid.toNat⟩ := by
    rw [itoa, if_neg (by omega : ¬ pid < 0)]
  simp only [Pidfile.write, hitoa, Pidfile.read, goParseInt32_natDigs hn1 hn2]
  omega

/-! ## The `Process` handle

`os.Process` values obtained from `os.StartProcess`/`os.FindProcess` are
modelled as an `OsProc` record; `(*os.Process).Release` renders the value
unusable but does not nil the pointer, so we record it in a `released`
flag rather than dropping the value. -/

structure OsProc where
  pid : Int
  released : Bool
deriving DecidableEq, Repr

/-- The scalar fields of the Go `Process` struct (process.go:38), in source
order, plus `pidfileFs`: the on-disk state of this handle's pidfile
(`none` = absent), which the Go code keeps at the path `Pidfile`. -/
structure Fields where
  Name : String
  Command : String
  Args : List String
  Pidfile : String
  Logfile : String
  Errfile : String
  Path : String
  Respawn : Int
  Delay : String
  Ping : String
  Pid : Int
  Status : String
  x : Option OsProc
  respawns : Int
  pidfileFs : Option String
deriving DecidableEq, Repr

/-- The Go `Process` struct: its scalar fields plus the `children` map,
modelled as an association list with one entry per name. -/
inductive Process : Type where
  | mk (f : Fields) (children : List (String × Process)) : Process

/-- The scalar fields of a handle. -/
def Process.f : Process → Fields
  | .mk f _ => f

/-- The `children` map of a handle. -/
def Process.children : Process → List (String × Process)
  | .mk _ c => c

/-- Outcomes of the IO actions a single supervision step can perform,
supplied explicitly: whether `os.StartProcess` succeeds, the pid the OS
assigns on success, and whether `ioutil.WriteFile` on the pidfile
succeeds. -/
structure Env where
  startOk : Bool
  newPid : Int
  pidfileWriteOk : Bool
deriving DecidableEq, Repr

/-- `Release` on the fields (process.go:132): release the held
`os.Process` value if any (the pointer itself is not cleared), zero `Pid`,
delete the pidfile, set `Status` to the given status. -/
def releaseF (f : Fields) (status : String) : Fields :=
  { f with x := f.x.map (fun r => { r with released := true }),
           Pid := 0,
           pidfileFs := (Pidfile.delete f.pidfileFs).1,
           Status := status }

/-- `Release(status)` (process.go:132). -/
def Process.Release (p : Process) (status : String) : Process :=
  .mk (releaseF p.f status) p.children

/-- Go's `delete(c, name)` on the children map: remove the entry with the
given key (a Go map holds at most one). -/
def eraseKey (k : String) : List (String × Process) → List (String × Process)
  | [] => []
  | e :: rest => if e.1 = k then rest else e :: eraseKey k rest

/-- `children.Keys` (process.go:230): the child names. -/
def childKeys (c : List (String × Process)) : List String := c.map Prod.fst

/-- `children.Get` (process.go:239): the named child, or `none`. -/
def childGet (c : List (String × Process)) (key : String) : Option Process :=
  (c.find? (fun e => e.1 = key)).map Prod.snd

mutual

/-- `Stop` (process.go:116): when a live reference is held, signal the
process via the external `kill` utility (an external effect; its error is
only logged) and stop all children; in every case call
`Release("stopped")` and return the `"stopped."` message. -/
def Process.Stop : Process → Process × String
  | .mk f cs =>
    if f.x.isSome then
      let r := childrenStopAllGo cs cs
      (Process.Release (.mk f r.1) "stopped", f.Name ++ " stopped.\n")
    else
      (Process.Release (.mk f cs) "stopped", f.Name ++ " stopped.\n")

/-- The `name == "all"` loop of `children.Stop` (process.go:248): iterate
over the entries (first argument), stopping each and deleting its key from
the map (second argument, threaded); returns the final map and the stopped
handles with their messages. -/
def childrenStopAllGo :
    List (String × Process) → List (String × Process) →
      List (String × Process) × List (Process × String)
  | [], m => (m, [])
  | e :: rest, m =>
    let s := Process.Stop e.2
    let r := childrenStopAllGo rest (eraseKey e.1 m)
    (r.1, s :: r.2)

end

/-- `children.Stop(name)` (process.go:246).  For `"all"`, stop and delete
every entry.  Otherwise `Get` the entry and stop it — when the name is
absent `Get` returns nil and the Go code dereferences it, a panic, which
we model as `none`. -/
def childrenStop (c : List (String × Process)) (name : String) :
    Option (List (String × Process) × List (Process × String)) :=
  if name = "all" then some (childrenStopAllGo c c)
  else
    match childGet c name with
    | none => none
    | some p => some (eraseKey name c, [p.Stop])

/-- `Start(name)` (process.go:86): set `Name`; launch the command
(`log.Fatalf`, i.e. supervisor death, on failure — modelled as `none`);
write the pidfile, and on a write failure log and return `""` early,
leaving `x`, `Pid` and `Status` untouched; otherwise record the new
process, set `Status = "started"` and return the descriptive message. -/
def Process.Start (env : Env) (name : String) (p : Process) : Option (Process × String) :=
  let f1 : Fields := { p.f with Name := name }
  if env.startOk then
    if env.pidfileWriteOk then
      let f2 : Fields :=
        { f1 with x := some (OsProc.mk env.newPid false), Pid := env.newPid,
                  pidfileFs := Pidfile.write env.newPid, Status := "started" }
      some (.mk f2 p.children, name ++ " is " ++ itoa env.newPid ++ "\n")
    else
      some (.mk f1 p.children, "")
  else
    none

/-- `Find` (process.go:66): require a non-empty `Pidfile` path; read the
pidfile; a positive pid attaches a reference via `os.FindProcess` (which
never fails on Unix), sets `Pid` and `Status = "running"` and returns a
success message; otherwise return the "not running" message and a
"Could not find process" error.  Result: the updated handle, the returned
`*os.Process`, the message, and the error (`none` = nil error). -/
def Process.Find (p : Process) : Process × Option OsProc × String × Option String :=
  if p.f.Pidfile = "" then
    (p, none, "", some "Pidfile is empty.")
  else
    let pid := Pidfile.read p.f.pidfileFs
    if 0 < pid then
      (.mk { p.f with x := some ⟨pid, false⟩, Pid := pid, Status := "running" } p.children,
       some ⟨pid, false⟩,
       p.f.Name ++ " is " ++ itoa pid ++ "\n",
       none)
    else
      (p, none, p.f.Name ++ " not running.\n",
       some ("Could not find process " ++ p.f.Name ++ "."))

/-- `Restart` (process.go:142): `Stop`, then relaunch under the same name
through `RunProcess` (whose goroutine runs `Start`, arms the liveness
probe and a fresh `Watch`); the sequential model runs that goroutine's
`Start` to completion here.  `none` = the relaunch hit `log.Fatalf`. -/
def Process.Restart (env : Env) (p : Process) : Option (Process × String) :=
  let p1 := (p.Stop).1
  (Process.Start env p.f.Name p1).map (fun r => (r.1, p.f.Name ++ " restarted.\n"))

/-- The liveness-probe callback armed by `RunProcess` (process.go:25):
when it fires with `Pid > 0`, reset `respawns` and set
`Status = "running"`. -/
def Process.probeFire (p : Process) : Process :=
  if 0 < p.f.Pid then .mk { p.f with respawns := 0, Status := "running" } p.children
  else p

/-- What `Watch`'s select receives: a process state on the `status`
channel (the process exited), or an error on the `died` channel (the wait
failed). -/
inductive WaitMsg where
  | exited
  | waitError
deriving DecidableEq, Repr

/-- How one `Watch` invocation concluded. -/
inductive WatchOutcome where
  /-- `p.x == nil` at entry: released as `"stopped"`, returned at once. -/
  | noProc
  /-- Wait error: released as `"killed"`. -/
  | killed
  /-- Exit observed while `Status == "stopped"`: returned silently. -/
  | raceStopped
  /-- `respawns` exceeded `Respawn`: released as `"exited"`. -/
  | budgetExhausted
  /-- Restarted and a fresh watch armed on the new instance. -/
  | restarted
deriving DecidableEq, Repr

/-- `Watch` (process.go:167), one blocking invocation: with no process
reference, release as `"stopped"` at once; on a wait error release as
`"killed"`; on an observed exit, return silently if `Status` is already
`"stopped"`, else increment `respawns` and either release as `"exited"`
(budget exhausted) or (after the optional delay) restart and mark
`"restarted"`.  `none` = the restart's relaunch hit `log.Fatalf`. -/
def Process.WatchStep (env : Env) (p : Process) (w : WaitMsg) :
    Option (Process × WatchOutcome) :=
  if p.f.x = none then some (p.Release "stopped", .noProc)
  else
    match w with
    | .waitError => some (p.Release "killed", .killed)
    | .exited =>
      if p.f.Status = "stopped" then some (p, .raceStopped)
      else
        let p1 : Process := .mk { p.f with respawns := p.f.respawns + 1 } p.children
        if p1.f.Respawn < p1.f.respawns then
          some (p1.Release "exited", .budgetExhausted)
        else
          (p1.Restart env).map (fun r =>
            (.mk { r.1.f with Status := "restarted" } r.1.children, .restarted))

/-- Deliver `k` consecutive unexpected exits to the supervision loop:
each is observed by the watch armed for the current instance; a
`restarted` outcome arms a watch for the next exit, any other outcome
leaves no watcher (so further exits cannot be observed: `none`).  Returns
the final handle and how many restarts were performed. -/
def deliverExits (env : Env) : Nat → Process → Option (Process × Nat)
  | 0, p => some (p, 0)
  | k + 1, p =>
    match p.WatchStep env .exited with
    | none => none
    | some (q, o) =>
      if o = .restarted then (deliverExits env k q).map (fun r => (r.1, r.2 + 1))
      else if k = 0 then some (q, 0) else none

/-! ## Helper lemmas about the operations -/

@[simp] theorem Process.f_mk (f : Fields) (cs : List (String × Process)) :
    (Process.mk f cs).f = f := rfl

@[simp] theorem Process.children_mk (f : Fields) (cs : List (String × Process)) :
    (Process.mk f cs).children = cs := rfl

@[simp] theorem Pidfile.delete_fst (fs : Option String) : (Pidfile.delete fs).1 = none := by
  cases fs <;> rfl

@[simp] theorem releaseF_Status (f : Fields) (s : String) : (releaseF f s).Status = s := rfl

@[simp] theorem releaseF_Pid (f : Fields) (s : String) : (releaseF f s).Pid = 0 := rfl

@[simp] theorem releaseF_pidfileFs (f : Fields) (s : String) :
    (releaseF f s).pidfileFs = none := by
  simp [releaseF]

@[simp] theorem releaseF_respawns (f : Fields) (s : String) :
    (releaseF f s).respawns = f.respawns := rfl

@[simp] theorem releaseF_Respawn (f : Fields) (s : String) :
    (releaseF f s).Respawn = f.Respawn := rfl

@[simp] theorem releaseF_Name (f : Fields) (s : String) : (releaseF f s).Name = f.Name := rfl

theorem Stop_eq (f : Fields) (cs : List (String × Process)) :
    Process.Stop (.mk f cs) =
      (Process.Release
        (.mk f (if f.x.isSome then (childrenStopAllGo cs cs).1 else cs)) "stopped",
       f.Name ++ " stopped.\n") := by
  rw [Process.Stop]
  by_cases hx : f.x.isSome <;> simp [hx]

theorem Stop_fst_f (p : Process) : (p.Stop).1.f = releaseF p.f "stopped" := by
  cases p with
  | mk f cs => rw [Stop_eq]; rfl

theorem Stop_snd (p : Process) : (p.Stop).2 = p.f.Name ++ " stopped.\n" := by
  cases p with
  | mk f cs => rw [Stop_eq]; rfl

theorem Stop_children (p : Process) :
    (p.Stop).1.children =
      if p.f.x.isSome then (childrenStopAllGo p.children p.children).1 else p.children := by
  cases p with
  | mk f cs => rw [Stop_eq]; rfl

theorem Start_ok (env : Env) (name : String) (p : Process)
    (hs : env.startOk = true) (hw : env.pidfileWriteOk = true) :
    Process.Start env name p =
      some (.mk { p.f with Name := name, x := some ⟨env.newPid, false⟩, Pid := env.newPid,
                           pidfileFs := some (itoa env.newPid), Status := "started" } p.children,
            name ++ " is " ++ itoa env.newPid ++ "\n") := by
  simp [Process.Start, hs, hw, Pidfile.write]

theorem Start_pidfail (env : Env) (name : String) (p : Process)
    (hs : env.startOk = true) (hw : env.pidfileWriteOk = false) :
    Process.Start env name p = some (.mk { p.f with Name := name } p.children, "") := by
  simp [Process.Start, hs, hw]

theorem Start_fatal (env : Env) (name : String) (p : Process)
    (hs : env.startOk = false) :
    Process.Start env name p = none := by
  simp [Process.Start, hs]

theorem Restart_ok (env : Env) (p : Process)
    (hs : env.startOk = true) (hw : env.pidfileWriteOk = true) :
    Process.Restart env p =
      some (.mk { p.f with x := some ⟨env.newPid, false⟩, Pid := env.newPid,
                           pidfileFs := some (itoa env.newPid), Status := "started" }
              (p.Stop).1.children,
            p.f.Name ++ " restarted.\n") := by
  rw [Process.Restart, Start_ok env p.f.Name (p.Stop).1 hs hw]
  have hf := Stop_fst_f p
  cases hStop : (p.Stop).1 with
  | mk g ds =>
    rw [hStop] at hf
    simp only [Process.f_mk] at hf
    subst hf
    simp [releaseF, Option.map]

theorem WatchStep_noProc (env : Env) (p : Process) (w : WaitMsg) (hx : p.f.x = none) :
    Process.WatchStep env p w = some (p.Release "stopped", .noProc) := by
  simp [Process.WatchStep, hx]

theorem WatchStep_killed (env : Env) (p : Process) (hx : p.f.x ≠ none) :
    Process.WatchStep env p .waitError = some (p.Release "killed", .killed) := by
  simp [Process.WatchStep, hx]

theorem WatchStep_raceStopped (env : Env) (p : Process)
    (hx : p.f.x ≠ none) (hst : p.f.Status = "stopped") :
    Process.WatchStep env p .exited = some (p, .raceStopped) := by
  simp [Process.WatchStep, hx, hst]

theorem WatchStep_budget (env : Env) (p : Process)
    (hx : p.f.x ≠ none) (hst : p.f.Status ≠ "stopped")
    (hb : p.f.Respawn < p.f.respawns + 1) :
    Process.WatchStep env p .exited =
      some (Process.Release (.mk { p.f with respawns := p.f.respawns + 1 } p.children) "exited",
            .budgetExhausted) := by
  simp [Process.WatchStep, hx, hst, hb]

/-- The fields a handle carries after `Watch` restarts it: `respawns`
incremented, a fresh live reference with the new pid, its pidfile written,
and `Status = "restarted"`. -/
def restartedF (env : Env) (f : Fields) : Fields :=
  { f with respawns := f.respawns + 1, x := some (OsProc.mk env.newPid false),
           Pid := env.newPid, pidfileFs := some (itoa env.newPid), Status := "restarted" }

theorem WatchStep_restart (env : Env) (p : Process)
    (hx : p.f.x ≠ none) (hst : p.f.Status ≠ "stopped")
    (hb : ¬ p.f.Respawn < p.f.respawns + 1)
    (hs : env.startOk = true) (hw : env.pidfileWriteOk = true) :
    ∃ cs, Process.WatchStep env p .exited =
      some (.mk (restartedF env p.f) cs, .restarted) := by
  refine ⟨((Process.mk { p.f with respawns := p.f.respawns + 1 } p.children).Stop).1.children, ?_⟩
  rw [Process.WatchStep]
  rw [if_neg hx]
  simp only []
  rw [if_neg hst]
  simp only [Process.f_mk]
  rw [if_neg hb]
  rw [Restart_ok env _ hs hw]
  simp [restartedF]

/-! ### Emptiness of the children map after `Stop("all")` -/

theorem childKeys_eraseKey (k : String) (m : List (String × Process)) :
    childKeys (eraseKey k m) = (childKeys m).erase k := by
  induction m with
  | nil => rfl
  | cons e rest ih =>
    by_cases he : e.1 = k
    · simp [eraseKey, he, childKeys, List.erase_cons]
    · simp only [eraseKey, if_neg he, childKeys, List.map_cons, List.erase_cons] at *
      have : ¬ (e.1 == k) = true := by simpa using he
      simp [this, ih]

theorem childrenStopAllGo_fst_empty :
    ∀ (l m : List (String × Process)),
      List.Subperm (childKeys m) (childKeys l) → (childrenStopAllGo l m).1 = [] := by
  intro l
  induction l with
  | nil =>
    intro m hm
    have hkeys : childKeys m = [] := List.subperm_nil.mp hm
    have hmnil : m = [] := by
      cases m with
      | nil => rfl
      | cons e rest => simp [childKeys] at hkeys
    subst hmnil
    rfl
  | cons e rest ih =>
    intro m hm
    rw [childrenStopAllGo]
    simp only []
    apply ih
    rw [childKeys_eraseKey]
    have h1 : List.Subperm ((childKeys m).erase e.1) ((childKeys (e :: rest)).erase e.1) :=
      hm.erase e.1
    have h2 : (childKeys (e :: rest)).erase e.1 = childKeys rest := by
      simp [childKeys, List.erase_cons]
    rwa [h2] at h1

theorem childrenStopAllGo_self_empty (c : List (String × Process)) :
    (childrenStopAllGo c c).1 = [] :=
  childrenStopAllGo_fst_empty c c (List.Subperm.refl _)

theorem childrenStopAllGo_snd (l m : List (String × Process)) :
    (childrenStopAllGo l m).2 = l.map (fun e => Process.Stop e.2) := by
  induction l generalizing m with
  | nil => rfl
  | cons e rest ih =>
    rw [childrenStopAllGo]
    simp [ih]

/-! ### The respawn-budget run -/

theorem deliverExits_exhausts (env : Env) (hs : env.startOk = true)
    (hw : env.pidfileWriteOk = true) :
    ∀ (k : Nat) (p : Process), p.f.x ≠ none → p.f.Status ≠ "stopped" →
      p.f.respawns + (k : Int) = p.f.Respawn →
      ∃ q, deliverExits env (k + 1) p = some (q, k) ∧
        q.f.Status = "exited" ∧ q.f.Pid = 0 ∧ q.f.pidfileFs = none ∧
        q.f.respawns = p.f.Respawn + 1 ∧ q.f.Respawn = p.f.Respawn := by
  intro k
  induction k with
  | zero =>
    intro p hx hst hr
    push_cast at hr
    have hb : p.f.Respawn < p.f.respawns + 1 := by omega
    refine ⟨Process.Release (.mk { p.f with respawns := p.f.respawns + 1 } p.children) "exited",
      ?_, ?_, ?_, ?_, ?_, ?_⟩
    · simp only [deliverExits]
      rw [WatchStep_budget env p hx hst hb]
      simp
    · simp [Process.Release]
    · simp [Process.Release]
    · simp [Process.Release]
    · simp [Process.Release]
      omega
    · simp [Process.Release]
  | succ k ih =>
    intro p hx hst hr
    push_cast at hr
    have hb : ¬ p.f.Respawn < p.f.respawns + 1 := by omega
    obtain ⟨cs, hws⟩ := WatchStep_restart env p hx hst hb hs hw
    set q1 : Process := Process.mk (restartedF env p.f) cs with hq1
    have hx1 : q1.f.x ≠ none := by simp [hq1, restartedF]
    have hst1 : q1.f.Status ≠ "stopped" := by simp [hq1, restartedF]
    have hr1 : q1.f.respawns + (k : Int) = q1.f.Respawn := by
      simp [hq1, restartedF]
      omega
    obtain ⟨q, hde, hS, hP, hF, hRs, hRw⟩ := ih q1 hx1 hst1 hr1
    refine ⟨q, ?_, hS, hP, hF, ?_, ?_⟩
    · conv_lhs => rw [deliverExits]
      rw [hws]
      simp [hde]
    · have hRq : q1.f.Respawn = p.f.Respawn := by simp [hq1, restartedF]
      have hrq : q1.f.respawns = p.f.respawns + 1 := by simp [hq1, restartedF]
      omega
    · have hRq : q1.f.Respawn = p.f.Respawn := by simp [hq1, restartedF]
      omega

/-! ### The pid / live-reference invariant -/

/-- Whether a live (not-yet-released) process reference is held in `x`. -/
def liveFB (f : Fields) : Bool :=
  match f.x with
  | some r => !r.released
  | none => false

/-- Whether the handle holds a live process reference. -/
def liveB (p : Process) : Bool := liveFB p.f

/-- The invariant of claim C3: `Pid > 0` iff a live reference is held. -/
def PidLiveInv (p : Process) : Prop := 0 < p.f.Pid ↔ liveB p = true

theorem liveFB_releaseF (f : Fields) (s : String) : liveFB (releaseF f s) = false := by
  cases hx : f.x with
  | none => simp [liveFB, releaseF, hx]
  | some r => simp [liveFB, releaseF, hx]

theorem release_inv (p : Process) (s : String) : PidLiveInv (p.Release s) := by
  simp [PidLiveInv, Process.Release, liveB, liveFB_releaseF]

theorem stop_inv (p : Process) : PidLiveInv ((p.Stop).1) := by
  simp [PidLiveInv, liveB, Stop_fst_f, liveFB_releaseF]

theorem start_inv (env : Env) (name : String) (p q : Process) (msg : String)
    (hpid : 0 < env.newPid)
    (hstart : Process.Start env name p = some (q, msg))
    (ih : PidLiveInv p) : PidLiveInv q := by
  by_cases hs : env.startOk
  · by_cases hw : env.pidfileWriteOk
    · rw [Start_ok env name p hs hw] at hstart
      simp only [Option.some.injEq, Prod.mk.injEq] at hstart
      obtain ⟨hq, -⟩ := hstart
      subst hq
      simp [PidLiveInv, liveB, liveFB, hpid]
    · rw [Start_pidfail env name p hs (by simpa using hw)] at hstart
      simp only [Option.some.injEq, Prod.mk.injEq] at hstart
      obtain ⟨hq, -⟩ := hstart
      subst hq
      simpa [PidLiveInv, liveB, liveFB] using ih
  · rw [Start_fatal env name p (by simpa using hs)] at hstart
    exact absurd hstart (by simp)

theorem restart_inv (env : Env) (p q : Process) (msg : String)
    (hpid : 0 < env.newPid)
    (hrestart : Process.Restart env p = some (q, msg)) : PidLiveInv q := by
  by_cases hs : env.startOk
  · by_cases hw : env.pidfileWriteOk
    · rw [Process.Restart, Start_ok env p.f.Name (p.Stop).1 hs hw] at hrestart
      simp only [Option.map_some', Option.some.injEq, Prod.mk.injEq] at hrestart
      obtain ⟨hq, -⟩ := hrestart
      subst hq
      simp [PidLiveInv, liveB, liveFB, hpid]
    · rw [Process.Restart, Start_pidfail env p.f.Name (p.Stop).1 hs (by simpa using hw)]
        at hrestart
      simp only [Option.map_some', Option.some.injEq, Prod.mk.injEq] at hrestart
      obtain ⟨hq, -⟩ := hrestart
      subst hq
      show 0 < (p.Stop).1.f.Pid ↔ liveFB ((p.Stop).1.f) = true
      rw [Stop_fst_f p, liveFB_releaseF]
      simp
  · rw [Process.Restart, Start_fatal env p.f.Name (p.Stop).1 (by simpa using hs)] at hrestart
    exact absurd hrestart (by simp)

theorem find_inv (p : Process) (ih : PidLiveInv p) : PidLiveInv ((p.Find).1) := by
  by_cases hpf : p.f.Pidfile = ""
  · simpa [Process.Find, hpf] using ih
  · by_cases hpid : 0 < Pidfile.read p.f.pidfileFs
    · simp [Process.Find, hpf, hpid, PidLiveInv, liveB, liveFB]
    · simpa [Process.Find, hpf, hpid] using ih

theorem probe_inv (p : Process) (ih : PidLiveInv p) : PidLiveInv p.probeFire := by
  by_cases hpid : 0 < p.f.Pid
  · simpa [Process.probeFire, hpid, PidLiveInv, liveB, liveFB] using ih
  · simpa [Process.probeFire, hpid] using ih

theorem watch_inv (env : Env) (p q : Process) (w : WaitMsg) (o : WatchOutcome)
    (hpid : 0 < env.newPid)
    (hwatch : Process.WatchStep env p w = some (q, o))
    (ih : PidLiveInv p) : PidLiveInv q := by
  by_cases hx : p.f.x = none
  · rw [WatchStep_noProc env p w hx] at hwatch
    simp only [Option.some.injEq, Prod.mk.injEq] at hwatch
    obtain ⟨hq, -⟩ := hwatch
    subst hq
    exact release_inv p "stopped"
  · cases w with
    | waitError =>
      rw [WatchStep_killed env p hx] at hwatch
      simp only [Option.some.injEq, Prod.mk.injEq] at hwatch
      obtain ⟨hq, -⟩ := hwatch
      subst hq
      exact release_inv p "killed"
    | exited =>
      by_cases hst : p.f.Status = "stopped"
      · rw [WatchStep_raceStopped env p hx hst] at hwatch
        simp only [Option.some.injEq, Prod.mk.injEq] at hwatch
        obtain ⟨hq, -⟩ := hwatch
        subst hq
        exact ih
      · by_cases hb : p.f.Respawn < p.f.respawns + 1
        · rw [WatchStep_budget env p hx hst hb] at hwatch
          simp only [Option.some.injEq, Prod.mk.injEq] at hwatch
          obtain ⟨hq, -⟩ := hwatch
          subst hq
          exact release_inv _ "exited"
        · rw [Process.WatchStep, if_neg hx] at hwatch
          simp only [] at hwatch
          rw [if_neg hst] at hwatch
          simp only [Process.f_mk] at hwatch
          rw [if_neg hb] at hwatch
          cases hrw : Process.Restart env
              (Process.mk { p.f with respawns := p.f.respawns + 1 } p.children) with
          | none => rw [hrw] at hwatch; exact absurd hwatch (by simp)
          | some r =>
            rw [hrw] at hwatch
            simp only [Option.map_some', Option.some.injEq, Prod.mk.injEq] at hwatch
            obtain ⟨hq, -⟩ := hwatch
            subst hq
            have hr : PidLiveInv r.1 := restart_inv env _ r.1 r.2 hpid (by rw [hrw])
            simpa [PidLiveInv, liveB, liveFB] using hr

/-- Handle states reachable through the public operations, from a freshly
configured handle (`Pid = 0`, no process reference).  The hypothesis
`0 < env.newPid` records the OS guarantee that `os.StartProcess` hands back
a positive pid. -/
inductive Reachable : Process → Prop where
  | init (p : Process) : p.f.Pid = 0 → p.f.x = none → Reachable p
  | start (p q : Process) (env : Env) (name msg : String) :
      Reachable p → 0 < env.newPid → Process.Start env name p = some (q, msg) → Reachable q
  | find (p : Process) : Reachable p → Reachable (p.Find).1
  | stop (p : Process) : Reachable p → Reachable (p.Stop).1
  | release (p : Process) (s : String) : Reachable p → Reachable (p.Release s)
  | restart (p q : Process) (env : Env) (msg : String) :
      Reachable p → 0 < env.newPid → Process.Restart env p = some (q, msg) → Reachable q
  | watch (p q : Process) (env : Env) (w : WaitMsg) (o : WatchOutcome) :
      Reachable p → 0 < env.newPid → Process.WatchStep env p w = some (q, o) → Reachable q
  | probe (p : Process) : Reachable p → Reachable p.probeFire

/-! ## Concrete instances used by witnesses and counterexamples -/

/-- A freshly configured handle's fields: static config only, `Respawn = 2`,
nothing launched. -/
def fields0 : Fields :=
  ⟨"w", "/bin/worker", [], "/tmp/w.pid", "", "", "", 2, "", "", 0, "", none, 0, none⟩

/-- A started child handle. -/
def child0 : Process :=
  .mk ⟨"c", "/bin/child", [], "/tmp/c.pid", "", "", "", 0, "", "", 7, "started",
        some ⟨7, false⟩, 0, some "7"⟩ []

/-- A handle holding no process reference but a populated child tree. -/
def pNoRef : Process := .mk fields0 [("c", child0)]

/-- A started handle, live reference with pid 5, pidfile written. -/
def pLive : Process :=
  .mk { fields0 with x := some ⟨5, false⟩, Pid := 5, Status := "started", pidfileFs := some "5" }
     [("c", child0)]

/-- A handle explicitly stopped while its wait was still pending. -/
def pStopped : Process := .mk { fields0 with x := some ⟨5, false⟩, Status := "stopped" } []

/-- A handle configured with an empty pidfile path. -/
def pEmptyPf : Process := .mk { fields0 with Pidfile := "" } []

/-- A well-behaved environment: launches succeed with pid 42, pidfile
writes succeed. -/
def envOk : Env := ⟨true, 42, true⟩

/-- An environment in which the launch succeeds but the pidfile write
fails. -/
def envPidfileFail : Env := ⟨true, 42, false⟩

/-! ## The claims -/

/-- **C2**: Explicit stop suppresses respawn: whenever `watch` observes a
process exit while `Status` is already `"stopped"`, it returns with the
handle completely unchanged — `respawns` not incremented, `restart` not
invoked, `Status` still `"stopped"` (outcome `raceStopped`, not
`restarted`). -/
theorem stop_suppresses_respawn (env : Env) (p : Process)
    (hx : p.f.x ≠ none) (hst : p.f.Status = "stopped") :
    Process.WatchStep env p .exited = some (p, .raceStopped) :=
  WatchStep_raceStopped env p hx hst

theorem stop_suppresses_respawn_witness :
    pStopped.f.x ≠ none ∧ pStopped.f.Status = "stopped" ∧
    Process.WatchStep envOk pStopped .exited = some (pStopped, .raceStopped) :=
  ⟨by decide, rfl, stop_suppresses_respawn envOk pStopped (by decide) rfl⟩

/-- **C10**: `watch` on a handle holding no process reference immediately
performs `release("stopped")` — `Status = "stopped"`, `Pid = 0`, pidfile
deleted — and returns (outcome `noProc`) without touching `respawns` and
without restarting, whatever would have been waited on. -/
theorem watch_no_reference (env : Env) (p : Process) (w : WaitMsg) (hx : p.f.x = none) :
    Process.WatchStep env p w = some (p.Release "stopped", .noProc) ∧
    (p.Release "stopped").f.Status = "stopped" ∧
    (p.Release "stopped").f.Pid = 0 ∧
    (p.Release "stopped").f.pidfileFs = none ∧
    (p.Release "stopped").f.respawns = p.f.respawns :=
  ⟨WatchStep_noProc env p w hx, by simp [Process.Release], by simp [Process.Release],
   by simp [Process.Release], by simp [Process.Release]⟩

theorem watch_no_reference_witness :
    pNoRef.f.x = none ∧
    Process.WatchStep envOk pNoRef .exited = some (pNoRef.Release "stopped", .noProc) :=
  ⟨rfl, (watch_no_reference envOk pNoRef .exited rfl).1⟩

/-- **C5**: `release(status)` is idempotent: a second call yields exactly
the same handle state (`Pid = 0`, `Status = status`, pidfile absent), and
deleting an already-absent pidfile succeeds without error. -/
theorem release_idempotent (p : Process) (status : String) :
    (p.Release status).Release status = p.Release status ∧
    (p.Release status).f.Pid = 0 ∧
    (p.Release status).f.Status = status ∧
    (p.Release status).f.pidfileFs = none ∧
    Pidfile.delete none = (none, true) := by
  refine ⟨?_, by simp [Process.Release], by simp [Process.Release],
    by simp [Process.Release], rfl⟩
  cases p with
  | mk f cs =>
    cases hx : f.x with
    | none => simp [Process.Release, releaseF, hx]
    | some r => simp [Process.Release, releaseF, hx]

/-- **C4** counterexample: with the launch succeeding (pid 42) but the
pidfile write failing, `start` returns the *empty* message and leaves the
handle unlaunched in every observable way — `Status` stays `""` (not
`"started"`), `Pid` stays `0` (not 42), no reference is recorded — because
the code returns early from the pidfile-error branch instead of
continuing. -/
theorem start_pidfile_failure_counterexample :
    (Process.Start envPidfileFail "w" (Process.mk fields0 [])).map
        (fun r => (r.1.f.Status, r.1.f.Pid, r.1.f.x, r.2)) =
      some ("", 0, none, "") := by
  rfl

/-- **C4** (amended): a pidfile-write failure during `start` is logged and
not propagated as an error, but `start` then returns early with the empty
message: only `Name` has been assigned, while `Status`, `Pid`, the process
reference and the recorded pidfile state are left untouched. -/
theorem start_pidfile_failure_amended (env : Env) (name : String) (p : Process)
    (hs : env.startOk = true) (hw : env.pidfileWriteOk = false) :
    Process.Start env name p = some (.mk { p.f with Name := name } p.children, "") :=
  Start_pidfail env name p hs hw

theorem start_pidfile_failure_amended_witness :
    envPidfileFail.startOk = true ∧ envPidfileFail.pidfileWriteOk = false ∧
    Process.Start envPidfileFail "w" pNoRef =
      some (.mk { fields0 with Name := "w" } [("c", child0)], "") :=
  ⟨rfl, rfl, start_pidfile_failure_amended envPidfileFail "w" pNoRef rfl rfl⟩

/-- **C8** counterexample: `stop()` on a handle holding no live process
reference does *not* stop or remove its children: the child entry survives
`Stop` and its status is still `"started"`, because the recursive
`children.Stop("all")` only runs inside the `x != nil` branch. -/
theorem stop_children_counterexample :
    childKeys ((Process.Stop pNoRef).1.children) = ["c"] ∧
    ((Process.Stop pNoRef).1.children.map (fun e => e.2.f.Status)) = ["started"] :=
  ⟨rfl, rfl⟩

/-- **C8** (amended): `stop()` stops and removes all children only when a
live process reference is held (leaving the tree untouched otherwise); in
every case it calls `release("stopped")` — `Status = "stopped"`, `Pid = 0`,
pidfile deleted — returns the `"stopped."` message, and never returns a
failure (it is total, with internal errors only logged). -/
theorem stop_spec (p : Process) :
    (p.Stop).1.f.Status = "stopped" ∧
    (p.Stop).1.f.Pid = 0 ∧
    (p.Stop).1.f.pidfileFs = none ∧
    (p.Stop).2 = p.f.Name ++ " stopped.\n" ∧
    (p.f.x.isSome = true → (p.Stop).1.children = []) ∧
    (p.f.x = none → (p.Stop).1.children = p.children) := by
  refine ⟨?_, ?_, ?_, Stop_snd p, ?_, ?_⟩
  · rw [Stop_fst_f]; simp
  · rw [Stop_fst_f]; simp
  · rw [Stop_fst_f]; simp
  · intro hx
    rw [Stop_children, if_pos hx]
    exact childrenStopAllGo_self_empty p.children
  · intro hx
    rw [Stop_children, if_neg (by simp [hx])]

theorem stop_spec_witness :
    pLive.f.x.isSome = true ∧ (Process.Stop pLive).1.children = [] :=
  ⟨rfl, (stop_spec pLive).2.2.2.2.1 rfl⟩

/-- **C9**: `children.Stop("all")` stops every entry and empties the tree:
afterwards `Keys` returns the empty list, and the stopped results are
exactly one `Stop` per original entry. -/
theorem children_stop_all_empties (c : List (String × Process)) :
    ∃ tree stopped, childrenStop c "all" = some (tree, stopped) ∧
      childKeys tree = [] ∧ stopped = c.map (fun e => Process.Stop e.2) := by
  refine ⟨(childrenStopAllGo c c).1, (childrenStopAllGo c c).2, ?_, ?_, ?_⟩
  · simp [childrenStop]
  · rw [childrenStopAllGo_self_empty]; rfl
  · exact childrenStopAllGo_snd c c

/-- **C1**: Respawn budget is exact: starting a liveness-confirmation-free
run from a watched handle with `respawns = 0` and `Respawn = N`, delivering
exactly `N + 1` consecutive unexpected exits performs exactly `N` restarts
(one after each of the first `N` exits), after which `respawns` exceeds
`Respawn` and `release("exited")` has run: `Status = "exited"`, `Pid = 0`,
the pidfile deleted, and — the final outcome not being `restarted` — no
further watch is armed and no further launch occurs. -/
theorem respawn_budget_exact (env : Env) (N : Nat) (p : Process)
    (hs : env.startOk = true) (hw : env.pidfileWriteOk = true)
    (hx : p.f.x ≠ none) (hst : p.f.Status ≠ "stopped")
    (hr0 : p.f.respawns = 0) (hN : p.f.Respawn = (N : Int)) :
    ∃ q, deliverExits env (N + 1) p = some (q, N) ∧
      q.f.Status = "exited" ∧ q.f.Pid = 0 ∧ q.f.pidfileFs = none ∧
      q.f.Respawn < q.f.respawns := by
  obtain ⟨q, h1, h2, h3, h4, h5, h6⟩ :=
    deliverExits_exhausts env hs hw N p hx hst (by omega)
  exact ⟨q, h1, h2, h3, h4, by omega⟩

theorem respawn_budget_exact_witness :
    pLive.f.x ≠ none ∧ pLive.f.Status ≠ "stopped" ∧ pLive.f.respawns = 0 ∧
    pLive.f.Respawn = ((2 : Nat) : Int) ∧
    ∃ q, deliverExits envOk (2 + 1) pLive = some (q, 2) ∧
      q.f.Status = "exited" ∧ q.f.Pid = 0 ∧ q.f.pidfileFs = none ∧
      q.f.Respawn < q.f.respawns :=
  ⟨by decide, by decide, rfl, rfl,
   respawn_budget_exact envOk 2 pLive rfl rfl (by decide) (by decide) rfl rfl⟩

/-- **C3**: On every handle state reachable through the public operations
(start, find, stop, release, restart, one watch step, the probe callback),
`Pid > 0` holds iff a live process reference is held in `x`; in particular
`release` zeroes `Pid` and relinquishes the reference, restoring both
sides. -/
theorem pid_iff_live_reference (p : Process) (h : Reachable p) :
    0 < p.f.Pid ↔ liveB p = true := by
  induction h with
  | init p h0 hx => simp [liveB, liveFB, hx, h0]
  | start p q env name msg hp hpid hstart ih => exact start_inv env name p q msg hpid hstart ih
  | find p hp ih => exact find_inv p ih
  | stop p hp ih => exact stop_inv p
  | release p s hp ih => exact release_inv p s
  | restart p q env msg hp hpid hrestart ih => exact restart_inv env p q msg hpid hrestart
  | watch p q env w o hp hpid hwatch ih => exact watch_inv env p q w o hpid hwatch ih
  | probe p hp ih => exact probe_inv p ih

theorem pid_iff_live_reference_witness :
    Reachable pNoRef ∧ (0 < pNoRef.f.Pid ↔ liveB pNoRef = true) :=
  ⟨Reachable.init pNoRef rfl rfl,
   pid_iff_live_reference pNoRef (Reachable.init pNoRef rfl rfl)⟩

/-- **C6**: the pidfile round-trips: for every pid in `[1, 2^31 - 1]`,
`write(pid)` then `read()` returns the pid unchanged; and `read()` of a
missing file, or of any content the `ParseInt` model rejects, returns 0 —
never an error (`read` is total into `Int`). -/
theorem pidfile_roundtrip_read_safe :
    (∀ pid : Int, 1 ≤ pid → pid ≤ 2 ^ 31 - 1 → Pidfile.read (Pidfile.write pid) = pid) ∧
    Pidfile.read none = 0 ∧
    (∀ s : String, goParseInt32 s = none → Pidfile.read (some s) = 0) := by
  refine ⟨read_write_roundtrip, rfl, ?_⟩
  intro s hs
  simp [Pidfile.read, hs]

theorem pidfile_roundtrip_read_safe_witness :
    (1 : Int) ≤ 4821 ∧ (4821 : Int) ≤ 2 ^ 31 - 1 ∧
    Pidfile.read (Pidfile.write 4821) = 4821 ∧
    goParseInt32 "junk" = none ∧ Pidfile.read (some "junk") = 0 :=
  ⟨by norm_num, by norm_num,
   pidfile_roundtrip_read_safe.1 4821 (by norm_num) (by norm_num),
   by decide, pidfile_roundtrip_read_safe.2.2 "junk" (by decide)⟩

/-- The fields after a successful `Find`: attached reference, `Pid` set,
`Status = "running"`. -/
def foundF (f : Fields) (pid : Int) : Fields :=
  { f with x := some (OsProc.mk pid false), Pid := pid, Status := "running" }

/-- **C7**: `find()` with an empty `Pidfile` path fails with the
"pidfile empty" error and changes nothing; when the pidfile reads as 0 it
fails with the "Could not find process" error and the "not running"
message, again unchanged; and when the pidfile yields a positive pid it
attaches a process reference, sets `Pid` to it and `Status = "running"`,
and returns a success message with a nil error. -/
theorem find_spec (p : Process) :
    (p.f.Pidfile = "" → p.Find = (p, none, "", some "Pidfile is empty.")) ∧
    (p.f.Pidfile ≠ "" → Pidfile.read p.f.pidfileFs = 0 →
      p.Find = (p, none, p.f.Name ++ " not running.\n",
                some ("Could not find process " ++ p.f.Name ++ "."))) ∧
    (p.f.Pidfile ≠ "" → 0 < Pidfile.read p.f.pidfileFs →
      p.Find = (.mk (foundF p.f (Pidfile.read p.f.pidfileFs)) p.children,
                some ⟨Pidfile.read p.f.pidfileFs, false⟩,
                p.f.Name ++ " is " ++ itoa (Pidfile.read p.f.pidfileFs) ++ "\n",
                none)) := by
  refine ⟨?_, ?_, ?_⟩
  · intro hpf
    simp [Process.Find, hpf]
  · intro hpf hread
    simp [Process.Find, hpf, hread]
  · intro hpf hread
    simp [Process.Find, hpf, hread, foundF]

theorem find_spec_witness :
    (pEmptyPf.f.Pidfile = "" ∧
      pEmptyPf.Find = (pEmptyPf, none, "", some "Pidfile is empty.")) ∧
    (pNoRef.f.Pidfile ≠ "" ∧ Pidfile.read pNoRef.f.pidfileFs = 0 ∧
      pNoRef.Find = (pNoRef, none, pNoRef.f.Name ++ " not running.\n",
                     some ("Could not find process " ++ pNoRef.f.Name ++ "."))) ∧
    (pLive.f.Pidfile ≠ "" ∧ 0 < Pidfile.read pLive.f.pidfileFs ∧
      pLive.Find = (.mk (foundF pLive.f (Pidfile.read pLive.f.pidfileFs)) pLive.children,
                    some ⟨Pidfile.read pLive.f.pidfileFs, false⟩,
                    pLive.f.Name ++ " is " ++ itoa (Pidfile.read pLive.f.pidfileFs) ++ "\n",
                    none)) :=
  ⟨⟨rfl, (find_spec pEmptyPf).1 rfl⟩,
   ⟨by decide, rfl, (find_spec pNoRef).2.1 (by decide) rfl⟩,
   ⟨by decide, by decide, (find_spec pLive).2.2 (by decide) (by decide)⟩⟩

end GoForever
